import Mathlib

/-!
# Resume analysis engine — verification development

The repository is a resume-parsing web application.  The browser client
(`frontend/src/components/ResumeUploader.tsx`) posts a PDF plus an optional
job description to a backend endpoint and renders the `ParseResponse` it
receives.  The backend Resume Analysis Engine itself is not among the
reviewed files; its behaviour is fixed by the project specification
(data model `ResumeData` / `ParseResponse`, the eight engine components,
and the error-handling policy).  This file embeds:

* the engine, modelled from the specification (text normalizer, contact
  extractor, skill extractor, experience estimator, keyword extractor,
  scoring engine, suggestion generator, job matcher), and
* the client-side file-selection handlers, translated from
  `ResumeUploader.tsx`,

and proves the specification's testable properties about them.
-/

namespace ResumeParsing

/-- A character that belongs to a word token (alphanumeric). -/
def isWordChar (c : Char) : Bool := c.isAlphanum

/-- Split a character list into maximal runs of characters satisfying `keep`;
`cur` accumulates the current run in reverse. -/
def splitRuns (keep : Char → Bool) : List Char → List Char → List (List Char)
  | cur, [] => if cur.isEmpty then [] else [cur.reverse]
  | cur, c :: cs =>
    if keep c then splitRuns keep (c :: cur) cs
    else if cur.isEmpty then splitRuns keep [] cs
    else cur.reverse :: splitRuns keep [] cs

/-- Lowercase the characters of a string. -/
def lowerChars (s : String) : List Char := s.toList.map Char.toLower

/-- Modelled from the spec: the Text Normalizer (§4.1) of the missing engine.
Lowercase-folds the raw text and splits it into a token sequence on word
boundaries; never fails, and empty input yields an empty token sequence. -/
def tokenize (s : String) : List String :=
  (splitRuns isWordChar [] (lowerChars s)).map List.asString

/-- Modelled from the spec: whitespace-delimited raw tokens of the lowercased
text, used by the Contact Extractor's pattern matching (§4.2), where
punctuation such as `@` and `.` is significant. -/
def rawTokens (s : String) : List (List Char) :=
  splitRuns (fun c => !c.isWhitespace) [] (lowerChars s)

/-- Modelled from the spec: a skill-taxonomy entry (§3):
canonical name, category, and recognized aliases. -/
structure SkillTaxonomyEntry where
  canonical_name : String
  category : String
  aliases : List String
deriving DecidableEq, Repr

/-- Modelled from the spec: the process-wide, read-only skill taxonomy
(§3, §9), loaded once and never mutated.  The entries realize the
spec's examples: `JavaScript` with aliases `{js, javascript}`, a separate
`java` entry, and the skills of the §8 scenario. -/
def taxonomy : List SkillTaxonomyEntry := [
  ⟨"JavaScript", "programming", ["js", "javascript"]⟩,
  ⟨"Java", "programming", ["java"]⟩,
  ⟨"Python", "programming", ["python"]⟩,
  ⟨"TypeScript", "programming", ["typescript", "ts"]⟩,
  ⟨"SQL", "databases", ["sql", "postgresql", "mysql"]⟩,
  ⟨"AWS", "cloud", ["aws", "amazon web services"]⟩,
  ⟨"Docker", "devops", ["docker"]⟩,
  ⟨"Kubernetes", "devops", ["kubernetes", "k8s"]⟩,
  ⟨"React", "frameworks", ["react", "reactjs"]⟩]

/-- Modelled from the spec: whole-word / multi-word phrase matching (§4.3).
The phrase is normalized into tokens and must occur as a contiguous run of
whole tokens of the document — boundary-aware, never substring matching. -/
def phraseMatches (doc : List String) (p : String) : Bool :=
  let pt := tokenize p
  !pt.isEmpty && decide (pt <:+: doc)

/-- Modelled from the spec: a taxonomy entry matches a document when its
canonical name or any alias occurs as a whole-word phrase (§4.3). -/
def entryMatches (doc : List String) (e : SkillTaxonomyEntry) : Bool :=
  phraseMatches doc e.canonical_name || e.aliases.any (phraseMatches doc)

/-- Modelled from the spec: `ExtractedSkills` (§3).  `skills` is the ordered
set of canonical names (insertion order = first occurrence); `pairs` records,
for each extracted skill, the single `(category, canonical name)` assignment
from which the category buckets are read off. -/
structure ExtractedSkills where
  skills : List String
  pairs : List (String × String)
deriving DecidableEq, Repr

/-- Modelled from the spec: one step of the Skill Extractor (§4.3) — a match
adds the canonical name to `skills` (if not already present) and to the
corresponding category bucket; duplicates collapse to one canonical skill. -/
def extractStep (doc : List String) (acc : ExtractedSkills)
    (e : SkillTaxonomyEntry) : ExtractedSkills :=
  if entryMatches doc e = true ∧ e.canonical_name ∉ acc.skills then
    { skills := acc.skills ++ [e.canonical_name],
      pairs := acc.pairs ++ [(e.category, e.canonical_name)] }
  else acc

/-- Modelled from the spec: the Skill Extractor (§4.3) — every taxonomy
entry is tested against the token sequence. -/
def extractSkills (tax : List SkillTaxonomyEntry) (doc : List String) :
    ExtractedSkills :=
  tax.foldl (extractStep doc) ⟨[], []⟩

/-- The category bucket of `ExtractedSkills` for category `c`:
the ordered set of skills assigned to `c`. -/
def bucketOf (pairs : List (String × String)) (c : String) : List String :=
  (pairs.filter (fun p => p.1 == c)).map (fun p => p.2)

/-- Modelled from the spec: the `Contact` record (§3) — each field optional
and independently extracted; absence is a valid terminal state. -/
structure Contact where
  email : Option String
  phone : Option String
  linkedin : Option String
  github : Option String
deriving DecidableEq, Repr

/-- Modelled from the spec: the RFC-lenient email pattern of the Contact
Extractor (§4.2) — a `local@domain` token with a nonempty local part and a
dotted nonempty domain. -/
def isEmailTok (cs : List Char) : Bool :=
  match cs.splitOn '@' with
  | [loc, dom] => !loc.isEmpty && !dom.isEmpty && dom.contains '.'
  | _ => false

/-- Modelled from the spec: the phone pattern of the Contact Extractor
(§4.2) — digit groups with optional separators / country code, 7–15 digits. -/
def isPhoneTok (cs : List Char) : Bool :=
  let digits := cs.countP (fun c => c.isDigit)
  7 ≤ digits && digits ≤ 15 &&
    cs.all (fun c => c.isDigit || c ∈ ['+', '-', '(', ')', '.'])

/-- Modelled from the spec: the Contact Extractor (§4.2) — independent
pattern matches, each returning the first match in document order, or
absent when none exists. -/
def extractContact (raw : List (List Char)) : Contact :=
  { email := (raw.find? isEmailTok).map List.asString,
    phone := (raw.find? isPhoneTok).map List.asString,
    linkedin := (raw.find? (fun t => "linkedin.com".toList <:+: t)).map List.asString,
    github := (raw.find? (fun t => "github.com".toList <:+: t)).map List.asString }

/-- Parse an all-digit token into a number. -/
def natOfCharsAux : Nat → List Char → Option Nat
  | acc, [] => some acc
  | acc, c :: cs =>
    if c.isDigit then natOfCharsAux (10 * acc + (c.toNat - 48)) cs else none

/-- Parse a nonempty all-digit string into a number. -/
def parseNat (s : String) : Option Nat :=
  if s.toList.isEmpty then none else natOfCharsAux 0 s.toList

/-- Modelled from the spec: the engine resolves "present"/"current" date
bounds to the current date (§4.4); the engine is otherwise pure, so the
reference year is a fixed constant of the deployment. -/
def currentYear : Nat := 2026

/-- A token that denotes a calendar year. -/
def yearTok (s : String) : Option Nat :=
  match parseNat s with
  | some n => if 1900 ≤ n && n ≤ 2099 then some n else none
  | none => none

/-- Modelled from the spec: strategy 1 of the Experience Estimator (§4.4) —
collect every number followed by a "years"-style word ("<N>+ years",
"<N> years of experience"). -/
def explicitYears : List String → List Nat
  | a :: b :: rest =>
    (if b = "years" || b = "year" || b = "yrs" then
      match parseNat a with
      | some n => [n]
      | none => []
    else []) ++ explicitYears (b :: rest)
  | _ => []

/-- Modelled from the spec: strategy 2's range scanner (§4.4) — a date range
is a pair of year tokens in order, or a year token followed by
"present"/"current" resolving to the current year. -/
def dateRanges : List String → List (Nat × Nat)
  | a :: b :: rest =>
    match yearTok a with
    | some y1 =>
      if b = "present" || b = "current" then
        (y1, max y1 currentYear) :: dateRanges rest
      else
        match yearTok b with
        | some y2 =>
          if y1 ≤ y2 then (y1, y2) :: dateRanges rest
          else dateRanges (b :: rest)
        | none => dateRanges (b :: rest)
    | none => dateRanges (b :: rest)
  | _ => []

/-- Insert a range into a list sorted by start year. -/
def insertRange (r : Nat × Nat) : List (Nat × Nat) → List (Nat × Nat)
  | [] => [r]
  | x :: xs => if r.1 ≤ x.1 then r :: x :: xs else x :: insertRange r xs

/-- Sort ranges by start year (insertion sort). -/
def sortRanges (l : List (Nat × Nat)) : List (Nat × Nat) :=
  l.foldr insertRange []

/-- Merge the ranges of a start-sorted list into the open range `cur`:
a range whose start does not exceed `cur`'s end is folded into `cur`. -/
def mergeFrom (cur : Nat × Nat) : List (Nat × Nat) → List (Nat × Nat)
  | [] => [cur]
  | x :: xs =>
    if x.1 ≤ cur.2 then mergeFrom (cur.1, max cur.2 x.2) xs
    else cur :: mergeFrom x xs

/-- Modelled from the spec: merge overlapping spans before summing (§4.4). -/
def mergeRanges : List (Nat × Nat) → List (Nat × Nat)
  | [] => []
  | x :: xs => mergeFrom x xs

/-- Total span, in years, of a list of ranges. -/
def spanSum (rs : List (Nat × Nat)) : Nat :=
  rs.foldl (fun acc r => acc + (r.2 - r.1)) 0

/-- Modelled from the spec: the Experience Estimator (§4.4).  Strategy 1
(explicit statement, largest number wins) is tried first; otherwise date
ranges are merged and summed; otherwise `none` (the not-found outcome,
per the tagged-outcome note of §9).  The result is clamped to [0, 50]. -/
def estimateExperience (toks : List String) : Option Nat :=
  match explicitYears toks with
  | n :: ns => some (min 50 (ns.foldl max n))
  | [] =>
    match dateRanges toks with
    | [] => none
    | rs => some (min 50 (spanSum (mergeRanges (sortRanges rs))))

/-- Modelled from the spec: the "not found" sentinel reported in
`experience_years` when neither strategy yields a value (§4.4, §7). -/
def notFoundExperience : String := "0"

/-- The `experience_years` string of the response envelope. -/
def experienceString : Option Nat → String
  | some n => toString n
  | none => notFoundExperience

/-- Modelled from the spec: the stopword set of the Keyword Extractor (§4.5). -/
def stopwords : List String :=
  ["a", "an", "the", "and", "or", "of", "in", "on", "at", "to", "for",
   "with", "is", "are", "was", "were", "as", "by", "i", "my", "me"]

/-- Lowercase a string (canonical skill names are compared to lowercase
tokens through this). -/
def lowerStr (s : String) : String := (lowerChars s).asString

/-- First-occurrence deduplication of a token list. -/
def dedupTokens (l : List String) : List String :=
  l.foldl (fun acc t => if acc.contains t then acc else acc ++ [t]) []

/-- Stable insertion, keeping the list ordered by frequency descending. -/
def insertByFreq (freq : String → Nat) (x : String) :
    List String → List String
  | [] => [x]
  | y :: ys => if freq y < freq x then x :: y :: ys
               else y :: insertByFreq freq x ys

/-- The fixed keyword cap (§4.5). -/
def keywordCap : Nat := 20

/-- Modelled from the spec: the Keyword Extractor (§4.5) — tokens minus
stopwords and already-extracted skills, deduplicated, ranked by frequency
descending with first-occurrence order as the tie-break, truncated to the
fixed cap. -/
def extractKeywords (toks : List String) (skills : List String) :
    List String :=
  let lowSkills := skills.map lowerStr
  let cands := toks.filter
    (fun t => !stopwords.contains t && !lowSkills.contains t)
  let distinct := dedupTokens cands
  (distinct.foldl (fun acc t => insertByFreq (fun u => cands.count u) t acc)
    []).take keywordCap

/-- Modelled from the spec: the extracted signals the Scoring Engine and
Suggestion Generator consume (§4.6, §4.7): skills, the tagged experience
outcome, contact fields, and the raw word count. -/
structure Signals where
  skills : List String
  experience : Option Nat
  contact : Contact
  wordCount : Nat
deriving DecidableEq, Repr

/-- Modelled from the spec: skill-breadth sub-score (§4.6) — counts distinct
skills with diminishing returns past a threshold, bounded by its weight 30. -/
def skillScore (n : Nat) : Nat := min 30 (n * 5)

/-- Modelled from the spec: experience sub-score (§4.6) — a non-zero
estimate contributes its full weight 25; zero or not-found contributes
nothing. -/
def expScore : Option Nat → Nat
  | some n => if 0 < n then 25 else 0
  | none => 0

/-- Modelled from the spec: contact-completeness sub-score (§4.6) — the
fraction of the four contact fields present, scaled to the weight 20. -/
def contactScore (c : Contact) : Nat :=
  5 * ((if c.email.isSome then 1 else 0) + (if c.phone.isSome then 1 else 0)
    + (if c.linkedin.isSome then 1 else 0) + (if c.github.isSome then 1 else 0))

/-- Modelled from the spec: content-depth sub-score (§4.6) — a
non-monotonic band function of the word count: the ideal band [300, 800]
earns the full weight 25; shorter documents earn proportionally less and
excessively long ones a reduced score. -/
def contentScore (wc : Nat) : Nat :=
  if wc < 300 then wc * 25 / 300
  else if wc ≤ 800 then 25
  else 15

/-- Modelled from the spec: `ScoreBreakdown` (§3) — the named component
contributions and the total. -/
structure ScoreBreakdown where
  skillPts : Nat
  expPts : Nat
  contactPts : Nat
  contentPts : Nat
  total : Nat
deriving DecidableEq, Repr

/-- Modelled from the spec: the Scoring Engine (§4.6) — a weighted sum of
independently bounded sub-scores (weights 30 + 25 + 20 + 25 = 100), with
the total clipped to [0, 100]. -/
def scoreBreakdown (sig : Signals) : ScoreBreakdown :=
  let a := skillScore sig.skills.length
  let b := expScore sig.experience
  let c := contactScore sig.contact
  let d := contentScore sig.wordCount
  { skillPts := a, expPts := b, contactPts := c, contentPts := d,
    total := min 100 (a + b + c + d) }

/-- Modelled from the spec: a `Suggestion` (§3). -/
structure Suggestion where
  category : String
  priority : String
  title : String
  description : String
  impact : String
deriving DecidableEq, Repr

/-- Modelled from the spec: a rule of the Suggestion Generator's declarative
catalog (§4.7, §9) — a predicate over the extracted signals paired with the
suggestion it emits. -/
structure SuggestionRule where
  cond : Signals → Bool
  sugg : Suggestion

/-- Modelled from the spec: the rule catalog of the Suggestion Generator
(§4.7) — independent rules in declaration order, realizing the spec's
examples (missing email, skill breadth below threshold, word count outside
the ideal band) plus missing-experience and missing-phone rules. -/
def suggestionCatalog : List SuggestionRule := [
  ⟨fun sig => sig.contact.email.isNone,
   ⟨"contact", "high", "Add a contact email",
    "No email address was detected on the resume.",
    "Recruiters can reach you directly"⟩⟩,
  ⟨fun sig => sig.experience.isNone,
   ⟨"experience", "medium", "State your experience",
    "No explicit years of experience or date ranges were detected.",
    "Clarifies seniority at a glance"⟩⟩,
  ⟨fun sig => sig.skills.length < 5,
   ⟨"skills", "medium", "List more skills",
    "Fewer than five recognized skills were detected.",
    "Improves keyword matching"⟩⟩,
  ⟨fun sig => sig.wordCount < 300 || 800 < sig.wordCount,
   ⟨"content", "low", "Adjust resume length",
    "The word count is outside the ideal 300-800 band.",
    "Keeps the resume easy to scan"⟩⟩,
  ⟨fun sig => sig.contact.phone.isNone,
   ⟨"contact", "low", "Add a phone number",
    "No phone number was detected on the resume.",
    "Offers a second contact channel"⟩⟩]

/-- The suggestions of the rules whose conditions hold, in rule-declaration
order. -/
def matchedSuggestions (sig : Signals) : List Suggestion :=
  (suggestionCatalog.filter (fun r => r.cond sig)).map (fun r => r.sugg)

/-- Numeric rank of a priority tier: high before medium before low. -/
def priorityRank (p : String) : Nat :=
  if p == "high" then 0 else if p == "medium" then 1 else 2

/-- Modelled from the spec: the Suggestion Generator (§4.7) — all matching
rules emit their suggestion, ordered by priority high → medium → low and
stable by rule-declaration order within a tier. -/
def generateSuggestions (sig : Signals) : List Suggestion :=
  (matchedSuggestions sig).filter (fun s => s.priority == "high")
    ++ (matchedSuggestions sig).filter (fun s => s.priority == "medium")
    ++ (matchedSuggestions sig).filter (fun s => s.priority == "low")

/-- Modelled from the spec: the Job Matcher's score (§4.8) — the coverage
of the job description's extracted skills by the resume's skills, scaled
to an integer in [0, 100]. -/
def matchScoreOf (resumeSkills jdSkills : List String) : Nat :=
  if jdSkills.isEmpty then 0
  else 100 * (jdSkills.filter (fun s => resumeSkills.contains s)).length
    / jdSkills.length

/-- Modelled from the spec: the `ResumeData` response envelope (§3, §6),
with the exact field names of the client contract (`skills_by_category`
is carried as the per-skill category assignment; buckets are read off it
with `bucketOf`). -/
structure ResumeData where
  skills : List String
  skills_by_category : List (String × String)
  experience_years : String
  keywords : List String
  contact : Contact
  resume_score : Nat
  suggestions : List Suggestion
  word_count : Nat
deriving DecidableEq, Repr

/-- Modelled from the spec: `ParseResponse` (§3) — `ResumeData` plus the
optional `match_score`. -/
structure ParseResponse where
  resume_data : ResumeData
  match_score : Option Nat
deriving DecidableEq, Repr

/-- The signals the engine extracts from a resume text (§2 control flow):
the extractors run independently over the normalized text. -/
def signalsOf (text : String) : Signals :=
  let toks := tokenize text
  { skills := (extractSkills taxonomy toks).skills,
    experience := estimateExperience toks,
    contact := extractContact (rawTokens text),
    wordCount := toks.length }

/-- Modelled from the spec: the full analysis pipeline (§2) producing the
`ResumeData` envelope. -/
def analyzeResume (text : String) : ResumeData :=
  let toks := tokenize text
  let es := extractSkills taxonomy toks
  let sig := signalsOf text
  { skills := es.skills,
    skills_by_category := es.pairs,
    experience_years := experienceString sig.experience,
    keywords := extractKeywords toks es.skills,
    contact := sig.contact,
    resume_score := (scoreBreakdown sig).total,
    suggestions := generateSuggestions sig,
    word_count := sig.wordCount }

/-- Modelled from the spec: the request boundary (§6) — a single call
taking `resume_text` and a possibly empty `job_description`, returning
`ParseResponse`; the Job Matcher runs only when the job description is
non-empty, otherwise `match_score` is entirely absent (§4.8, §7). -/
def analyzeRequest (resume_text job_description : String) : ParseResponse :=
  let rd := analyzeResume resume_text
  { resume_data := rd,
    match_score :=
      if job_description = "" then none
      else some (matchScoreOf rd.skills
        (extractSkills taxonomy (tokenize job_description)).skills) }

/-- A browser `File` as the uploader sees it: name and MIME type
(`frontend/src/components/ResumeUploader.tsx`). -/
structure BrowserFile where
  name : String
  mimeType : String
deriving DecidableEq, Repr

/-- The uploader component's state relevant to file selection:
`file`, `error`, and `isDragging`
(`frontend/src/components/ResumeUploader.tsx`, `useState` hooks). -/
structure UploaderState where
  file : Option BrowserFile
  error : String
  isDragging : Bool
deriving DecidableEq, Repr

/-- The error message the uploader sets for a non-PDF file
(`ResumeUploader.tsx` lines 59 and 70). -/
def pdfErrorMsg : String := "Please upload a PDF file"

/-- `handleDrop` (`ResumeUploader.tsx` lines 51–61): clears `isDragging`,
then, if the first dropped file exists and its type is `application/pdf`,
selects it and clears the error; otherwise (wrong type or no file) sets
the PDF error message and leaves the selection unchanged. -/
def handleDrop (s : UploaderState) (dropped : Option BrowserFile) :
    UploaderState :=
  let s := { s with isDragging := false }
  match dropped with
  | some f =>
    if f.mimeType = "application/pdf" then
      { s with file := some f, error := "" }
    else
      { s with error := pdfErrorMsg }
  | none => { s with error := pdfErrorMsg }

/-- `handleFileChange` (`ResumeUploader.tsx` lines 63–73): if a file was
chosen, select it and clear the error when it is a PDF, otherwise set the
PDF error message; with no file chosen the state is unchanged. -/
def handleFileChange (s : UploaderState) (selected : Option BrowserFile) :
    UploaderState :=
  match selected with
  | some f =>
    if f.mimeType = "application/pdf" then
      { s with file := some f, error := "" }
    else
      { s with error := pdfErrorMsg }
  | none => s

/-- A sample resume with the overlapping engagements of the spec's §8
overlap-merging property: 2019–2021 and 2020–2022. -/
def overlapResume : String :=
  "Software Engineer at Acme 2019-2021. Backend Developer at Beta 2020-2022."

/-- Signals of a resume that satisfies every suggestion rule: full contact,
found experience, five skills, word count inside the ideal band. -/
def goodSignals : Signals :=
  { skills := ["Python", "AWS", "Docker", "Kubernetes", "SQL"],
    experience := some 5,
    contact := ⟨some "a@b.com", some "1234567890", none, none⟩,
    wordCount := 400 }

/-- An initial uploader state: nothing selected, no error. -/
def initialUploader : UploaderState := ⟨none, "", false⟩

/-- A non-PDF file, as used to exercise the uploader's type gate. -/
def txtFile : BrowserFile := ⟨"resume.txt", "text/plain"⟩

/-! ## General lemmas about the skill extractor -/

/-- A one-element list is an infix of `l` exactly when its element is a
member of `l`: whole-word matching of a single-token phrase is membership. -/
theorem singleton_infix_iff {α : Type} (a : α) (l : List α) :
    [a] <:+: l ↔ a ∈ l := by
  constructor
  · intro h
    exact List.singleton_sublist.mp h.sublist
  · intro h
    obtain ⟨s, t, rfl⟩ := List.append_of_mem h
    exact ⟨s, t, by simp⟩

/-- A single-token phrase matches a document exactly when its token occurs
in the document's token sequence. -/
theorem phraseMatches_single (doc : List String) (p w : String)
    (hp : tokenize p = [w]) :
    phraseMatches doc p = true ↔ w ∈ doc := by
  unfold phraseMatches
  rw [hp]
  simp [singleton_infix_iff]

/-- Membership in the extractor's skill list is preserved by folding more
taxonomy entries. -/
theorem mem_skills_foldl (doc : List String) (tax : List SkillTaxonomyEntry)
    (acc : ExtractedSkills) (s : String) (h : s ∈ acc.skills) :
    s ∈ (tax.foldl (extractStep doc) acc).skills := by
  induction tax generalizing acc with
  | nil => exact h
  | cons e tax ih =>
    apply ih
    unfold extractStep
    split
    · exact List.mem_append_left _ h
    · exact h

/-- A taxonomy entry that matches the document contributes its canonical
name to the extracted skills. -/
theorem canonical_mem_extract (doc : List String)
    (tax : List SkillTaxonomyEntry) (acc : ExtractedSkills)
    (e : SkillTaxonomyEntry) (he : e ∈ tax)
    (hm : entryMatches doc e = true) :
    e.canonical_name ∈ (tax.foldl (extractStep doc) acc).skills := by
  induction tax generalizing acc with
  | nil => cases he
  | cons e' tax ih =>
    rcases List.mem_cons.mp he with rfl | he'
    · by_cases hin : e.canonical_name ∈ (extractStep doc acc e).skills
      · exact mem_skills_foldl doc tax _ _ hin
      · exfalso
        apply hin
        unfold extractStep
        split
        · exact List.mem_append_right _ (List.mem_singleton_self _)
        · next hneg =>
          unfold extractStep at hin
          split at hin
          · exact absurd (List.mem_append_right _ (List.mem_singleton_self _)) hin
          · exact absurd (not_not.mp fun hn => hneg ⟨hm, hn⟩) hin
    · exact ih _ he'

/-- Provenance: every extracted skill is the canonical name of some
taxonomy entry that matches the document. -/
theorem mem_extract_imp (doc : List String) (tax : List SkillTaxonomyEntry)
    (acc : ExtractedSkills) (s : String)
    (h : s ∈ (tax.foldl (extractStep doc) acc).skills) :
    s ∈ acc.skills ∨
      ∃ e ∈ tax, e.canonical_name = s ∧ entryMatches doc e = true := by
  induction tax generalizing acc with
  | nil => exact Or.inl h
  | cons e tax ih =>
    rcases ih (extractStep doc acc e) h with hstep | ⟨e', he', hc, hm⟩
    · unfold extractStep at hstep
      split at hstep
      · next hcond =>
        rcases List.mem_append.mp hstep with hl | hr
        · exact Or.inl hl
        · exact Or.inr ⟨e, List.mem_cons_self .., (List.mem_singleton.mp hr).symm, hcond.1⟩
      · exact Or.inl hstep
    · exact Or.inr ⟨e', List.mem_cons_of_mem _ he', hc, hm⟩

/-- The extractor's invariant: the per-skill category assignment lists the
extracted skills, in order, and the skill list has no duplicates. -/
theorem extract_invariant (doc : List String) (tax : List SkillTaxonomyEntry)
    (acc : ExtractedSkills)
    (hpair : acc.pairs.map Prod.snd = acc.skills) (hnd : acc.skills.Nodup) :
    (tax.foldl (extractStep doc) acc).pairs.map Prod.snd
        = (tax.foldl (extractStep doc) acc).skills
      ∧ (tax.foldl (extractStep doc) acc).skills.Nodup := by
  induction tax generalizing acc with
  | nil => exact ⟨hpair, hnd⟩
  | cons e tax ih =>
    apply ih
    · unfold extractStep
      split
      · simp [hpair]
      · exact hpair
    · unfold extractStep
      split
      · next hcond => simp [List.nodup_append, hnd, hcond.2]
      · exact hnd

/-! ## General lemmas about the suggestion generator -/

/-- Every suggestion of the catalog carries one of the three priorities. -/
theorem catalog_priority (r : SuggestionRule) (hr : r ∈ suggestionCatalog) :
    r.sugg.priority = "high" ∨ r.sugg.priority = "medium"
      ∨ r.sugg.priority = "low" := by
  simp only [suggestionCatalog, List.mem_cons, List.not_mem_nil, or_false] at hr
  rcases hr with rfl | rfl | rfl | rfl | rfl <;> simp

/-- Membership in the matched-suggestion list is exactly a matching rule. -/
theorem mem_matchedSuggestions (sig : Signals) (s : Suggestion) :
    s ∈ matchedSuggestions sig ↔
      ∃ r ∈ suggestionCatalog, r.cond sig = true ∧ r.sugg = s := by
  simp [matchedSuggestions, List.mem_map, List.mem_filter, and_assoc]

/-- The generator emits exactly the matched suggestions (as a set). -/
theorem mem_generateSuggestions (sig : Signals) (s : Suggestion) :
    s ∈ generateSuggestions sig ↔ s ∈ matchedSuggestions sig := by
  unfold generateSuggestions
  simp only [List.mem_append, List.mem_filter]
  constructor
  · rintro ((⟨h, _⟩ | ⟨h, _⟩) | ⟨h, _⟩) <;> exact h
  · intro h
    have hpr : s.priority = "high" ∨ s.priority = "medium"
        ∨ s.priority = "low" := by
      rcases (mem_matchedSuggestions sig s).mp h with ⟨r, hr, _, rfl⟩
      exact catalog_priority r hr
    rcases hpr with hp | hp | hp
    · exact Or.inl (Or.inl ⟨h, by simp [hp]⟩)
    · exact Or.inl (Or.inr ⟨h, by simp [hp]⟩)
    · exact Or.inr ⟨h, by simp [hp]⟩

/-- A member of a priority-filtered list carries that priority. -/
theorem priority_of_mem_filter {m : List Suggestion} {p : String}
    {s : Suggestion} (h : s ∈ m.filter (fun t => t.priority == p)) :
    s.priority = p := by
  simpa using (List.mem_filter.mp h).2

/-- Filtering a priority tier by the same priority is the identity. -/
theorem filter_tier_self (m : List Suggestion) (p : String) :
    (m.filter (fun s => s.priority == p)).filter (fun s => s.priority == p)
      = m.filter (fun s => s.priority == p) := by
  apply List.filter_eq_self.mpr
  intro a ha
  simp [priority_of_mem_filter ha]

/-- Filtering a priority tier by a different priority yields nothing. -/
theorem filter_tier_ne (m : List Suggestion) (p q : String) (hne : q ≠ p) :
    (m.filter (fun s => s.priority == q)).filter (fun s => s.priority == p)
      = [] := by
  apply List.filter_eq_nil_iff.mpr
  intro a ha
  simp [priority_of_mem_filter ha, hne]

/-- The generator's output is sorted by priority rank,
high before medium before low. -/
theorem generateSuggestions_sorted (sig : Signals) :
    (generateSuggestions sig).Pairwise
      (fun a b => priorityRank a.priority ≤ priorityRank b.priority) := by
  unfold generateSuggestions
  refine List.pairwise_append.mpr ⟨List.pairwise_append.mpr ⟨?_, ?_, ?_⟩, ?_, ?_⟩
  · exact List.pairwise_of_forall_mem_list fun a ha b hb => by
      rw [priority_of_mem_filter ha, priority_of_mem_filter hb]
  · exact List.pairwise_of_forall_mem_list fun a ha b hb => by
      rw [priority_of_mem_filter ha, priority_of_mem_filter hb]
  · intro a ha b hb
    rw [priority_of_mem_filter ha, priority_of_mem_filter hb]
    decide
  · exact List.pairwise_of_forall_mem_list fun a ha b hb => by
      rw [priority_of_mem_filter ha, priority_of_mem_filter hb]
  · intro a ha b hb
    rcases List.mem_append.mp ha with h | h <;>
      rw [priority_of_mem_filter h, priority_of_mem_filter hb] <;> decide

/-- Within each priority tier, the generator's output keeps the matched
suggestions in rule-declaration order (stability). -/
theorem generateSuggestions_stable (sig : Signals) (p : String)
    (hp : p = "high" ∨ p = "medium" ∨ p = "low") :
    (generateSuggestions sig).filter (fun s => s.priority == p)
      = (matchedSuggestions sig).filter (fun s => s.priority == p) := by
  unfold generateSuggestions
  rw [List.filter_append, List.filter_append]
  rcases hp with rfl | rfl | rfl
  · rw [filter_tier_self, filter_tier_ne _ _ _ (by decide),
      filter_tier_ne _ _ _ (by decide)]
    simp
  · rw [filter_tier_self, filter_tier_ne _ _ _ (by decide),
      filter_tier_ne _ _ _ (by decide)]
    simp
  · rw [filter_tier_self, filter_tier_ne _ _ _ (by decide),
      filter_tier_ne _ _ _ (by decide)]
    simp

/-- When no rule condition holds, the generator emits nothing. -/
theorem generateSuggestions_empty (sig : Signals)
    (h : ∀ r ∈ suggestionCatalog, r.cond sig = false) :
    generateSuggestions sig = [] := by
  have hm : matchedSuggestions sig = [] := by
    unfold matchedSuggestions
    rw [List.filter_eq_nil_iff.mpr]
    · rfl
    · intro r hr
      simp [h r hr]
  simp [generateSuggestions, hm]

/-- The Job Matcher's coverage score never exceeds 100. -/
theorem matchScoreOf_le (a b : List String) : matchScoreOf a b ≤ 100 := by
  unfold matchScoreOf
  split
  · exact Nat.zero_le _
  · next h =>
    have hlen : 0 < b.length := by
      cases b with
      | nil => simp at h
      | cons x xs => simp
    calc 100 * (b.filter (fun s => a.contains s)).length / b.length
        ≤ 100 * b.length / b.length :=
          Nat.div_le_div_right (Nat.mul_le_mul_left _ (List.length_filter_le _ _))
      _ = 100 := Nat.mul_div_left 100 hlen

/-! ## The claims -/

/-- C1: for every resume text the analysis result's `resume_score` is an
integer in [0, 100]; whenever a `match_score` is present in the
`ParseResponse` it is also in [0, 100]; and the score total equals the
clipped sum of the score components. -/
theorem resume_score_bounded_and_clipped (rt jd : String) :
    (analyzeRequest rt jd).resume_data.resume_score
        = min 100 ((scoreBreakdown (signalsOf rt)).skillPts
          + (scoreBreakdown (signalsOf rt)).expPts
          + (scoreBreakdown (signalsOf rt)).contactPts
          + (scoreBreakdown (signalsOf rt)).contentPts)
      ∧ 0 ≤ (analyzeRequest rt jd).resume_data.resume_score
      ∧ (analyzeRequest rt jd).resume_data.resume_score ≤ 100
      ∧ ∀ m, (analyzeRequest rt jd).match_score = some m → m ≤ 100 := by
  refine ⟨rfl, Nat.zero_le _, ?_, ?_⟩
  · show min 100 _ ≤ 100
    exact min_le_left _ _
  · intro m hm
    have hms : (analyzeRequest rt jd).match_score
        = if jd = "" then none
          else some (matchScoreOf (analyzeResume rt).skills
            (extractSkills taxonomy (tokenize jd)).skills) := rfl
    rw [hms] at hm
    split at hm
    · cases hm
    · cases hm
      exact matchScoreOf_le _ _

/-- Witness for C1 at a concrete request with a job description present. -/
theorem resume_score_bounded_and_clipped_witness :
    (analyzeRequest "python developer" "python").match_score = some 100
      ∧ (100 : Nat) ≤ 100 :=
  ⟨by decide,
   (resume_score_bounded_and_clipped "python developer" "python").2.2.2 100
     (by decide)⟩

/-- C2: `match_score` is present in the `ParseResponse` iff a non-empty
job description was supplied — absent (never zero) for an empty one, and
present with a value in [0, 100] for a non-empty one. -/
theorem match_score_presence (rt jd : String) :
    ((analyzeRequest rt jd).match_score = none ↔ jd = "")
      ∧ (jd ≠ "" →
          ∃ m, (analyzeRequest rt jd).match_score = some m ∧ m ≤ 100) := by
  have hms : (analyzeRequest rt jd).match_score
      = if jd = "" then none
        else some (matchScoreOf (analyzeResume rt).skills
          (extractSkills taxonomy (tokenize jd)).skills) := rfl
  by_cases hjd : jd = ""
  · rw [hms, if_pos hjd]
    exact ⟨⟨fun _ => hjd, fun _ => rfl⟩, fun hne => absurd hjd hne⟩
  · rw [hms, if_neg hjd]
    exact ⟨⟨fun h => Option.noConfusion h, fun h => absurd h hjd⟩,
      fun _ => ⟨_, rfl, matchScoreOf_le _ _⟩⟩

/-- Witness for C2 at a concrete non-empty job description. -/
theorem match_score_presence_witness :
    ∃ m, (analyzeRequest "developer" "python").match_score = some m
      ∧ m ≤ 100 :=
  (match_score_presence "developer" "python").2 (by decide)

/-- C3: for the empty resume text the engine does not fail and returns the
degraded defaults: no skills, the not-found experience sentinel, zero word
count, all-zero score components, and a non-empty suggestions list. -/
theorem empty_input_degrades_gracefully :
    (analyzeResume "").skills = []
      ∧ (analyzeResume "").experience_years = notFoundExperience
      ∧ (analyzeResume "").word_count = 0
      ∧ scoreBreakdown (signalsOf "") = ⟨0, 0, 0, 0, 0⟩
      ∧ 0 < (analyzeResume "").suggestions.length := by
  decide

/-- C4: the engine is deterministic — analyzing the same resume text (and
job description) twice yields identical results in every field. -/
theorem engine_deterministic (rt jd : String) :
    analyzeRequest rt jd = analyzeRequest rt jd ∧
      analyzeResume rt = analyzeResume rt :=
  ⟨rfl, rfl⟩

/-- C5: overlapping date ranges 2019–2021 and 2020–2022 are merged before
summing: the aggregate is 3 years (merged span 2019–2022), while the naive
unmerged sum of the two detected ranges would be 4. -/
theorem experience_overlap_merged :
    (analyzeResume overlapResume).experience_years = "3"
      ∧ spanSum (dateRanges (tokenize overlapResume)) = 4
      ∧ spanSum (mergeRanges (sortRanges (dateRanges (tokenize overlapResume)))) = 3 := by
  decide

/-- C6: skill matching is whole-word, never substring: in a document whose
token sequence does not contain the standalone token "java" (for instance
because "java" occurs only inside "javascript"), the taxonomy entry
`Java` is not added to the skills. -/
theorem no_substring_skill_match (s : String)
    (h : "java" ∉ tokenize s) :
    "Java" ∉ (analyzeResume s).skills := by
  intro hmem
  have hm : "Java" ∈ ((taxonomy).foldl (extractStep (tokenize s)) ⟨[], []⟩).skills := hmem
  rcases mem_extract_imp _ _ _ _ hm with hnil | ⟨e, he, hc, hmt⟩
  · simp at hnil
  · simp only [taxonomy, List.mem_cons, List.not_mem_nil, or_false] at he
    rcases he with rfl | rfl | rfl | rfl | rfl | rfl | rfl | rfl | rfl
    all_goals try exact absurd hc (by decide)
    apply h
    simp only [entryMatches, List.any_cons, List.any_nil, Bool.or_false,
      Bool.or_eq_true] at hmt
    rcases hmt with hmt | hmt
    · exact (phraseMatches_single _ _ _ (by decide)).mp hmt
    · exact (phraseMatches_single _ _ _ (by decide)).mp hmt

/-- Witness for C6: "javascript developer" contains "java" only inside
"javascript" and yields no `Java` skill. -/
theorem no_substring_skill_match_witness :
    "Java" ∉ (analyzeResume "javascript developer").skills :=
  no_substring_skill_match "javascript developer" (by decide)

/-- C7: skill extraction is alias-insensitive and deduplicating — for every
taxonomy entry, matching any of its aliases (e.g., either of
{"js", "javascript"}) adds the entry's canonical name to the skills, and
that canonical name appears exactly once in the skills even when several
of its aliases match. -/
theorem alias_insensitive_dedup (s : String) (e : SkillTaxonomyEntry)
    (he : e ∈ taxonomy)
    (h : ∃ a ∈ e.aliases, phraseMatches (tokenize s) a = true) :
    ((analyzeResume s).skills).count e.canonical_name = 1 := by
  have hmatch : entryMatches (tokenize s) e = true := by
    unfold entryMatches
    rw [Bool.or_eq_true, List.any_eq_true]
    exact Or.inr h
  have hmem : e.canonical_name
      ∈ ((taxonomy).foldl (extractStep (tokenize s)) ⟨[], []⟩).skills :=
    canonical_mem_extract _ _ _ _ he hmatch
  have hnd : ((taxonomy).foldl (extractStep (tokenize s)) ⟨[], []⟩).skills.Nodup :=
    (extract_invariant _ _ _ rfl List.nodup_nil).2
  exact List.count_eq_one_of_mem hnd hmem

/-- Witness for C7: both aliases of the `JavaScript` entry occur, the
canonical skill appears exactly once. -/
theorem alias_insensitive_dedup_witness :
    ((analyzeResume "js and javascript developer").skills).count "JavaScript"
      = 1 :=
  alias_insensitive_dedup "js and javascript developer"
    ⟨"JavaScript", "programming", ["js", "javascript"]⟩ (by decide)
    ⟨"js", by decide, by decide⟩

/-- C8: the Suggestion Generator's output is exactly the suggestions of the
rules whose conditions hold, ordered by priority high → medium → low and
stable by rule-declaration order within each tier; when every rule
condition is false the output is empty. -/
theorem suggestions_exact_and_ordered (sig : Signals) :
    (∀ s, s ∈ generateSuggestions sig ↔
        ∃ r ∈ suggestionCatalog, r.cond sig = true ∧ r.sugg = s)
      ∧ (generateSuggestions sig).Pairwise
          (fun a b => priorityRank a.priority ≤ priorityRank b.priority)
      ∧ (∀ p, (p = "high" ∨ p = "medium" ∨ p = "low") →
          (generateSuggestions sig).filter (fun s => s.priority == p)
            = (matchedSuggestions sig).filter (fun s => s.priority == p))
      ∧ ((∀ r ∈ suggestionCatalog, r.cond sig = false) →
          generateSuggestions sig = []) :=
  ⟨fun s => (mem_generateSuggestions sig s).trans (mem_matchedSuggestions sig s),
   generateSuggestions_sorted sig,
   fun p hp => generateSuggestions_stable sig p hp,
   generateSuggestions_empty sig⟩

/-- Witness for C8: on signals satisfying every rule, no suggestion is
emitted. -/
theorem suggestions_exact_and_ordered_witness :
    generateSuggestions goodSignals = [] :=
  (suggestions_exact_and_ordered goodSignals).2.2.2 (by decide)

/-- C9: after every extraction, each extracted skill appears in exactly one
category bucket of the categorized skills, and no skill appears twice
within a single category bucket. -/
theorem skills_category_partition (text : String) (sk : String)
    (h : sk ∈ (analyzeResume text).skills) :
    (∃! c, sk ∈ bucketOf (analyzeResume text).skills_by_category c)
      ∧ ∀ c, (bucketOf (analyzeResume text).skills_by_category c).Nodup := by
  have hinv := extract_invariant (tokenize text) taxonomy ⟨[], []⟩ rfl
    List.nodup_nil
  have hpairs := hinv.1
  have hnd := hinv.2
  have hndm : (((taxonomy).foldl (extractStep (tokenize text)) ⟨[], []⟩).pairs.map
      Prod.snd).Nodup := by
    rw [hpairs]; exact hnd
  have hmem : sk ∈ ((taxonomy).foldl (extractStep (tokenize text)) ⟨[], []⟩).pairs.map
      Prod.snd := by
    rw [hpairs]; exact h
  constructor
  · obtain ⟨p, hp, hps⟩ := List.mem_map.mp hmem
    refine ⟨p.1, ?_, ?_⟩
    · exact List.mem_map.mpr ⟨p, List.mem_filter.mpr ⟨hp, by simp⟩, hps⟩
    · intro c hc
      obtain ⟨q, hq, hqs⟩ := List.mem_map.mp hc
      have hq' := List.mem_filter.mp hq
      have hqp : q = p :=
        List.inj_on_of_nodup_map hndm hq'.1 hp (by rw [hqs, hps])
      have hc1 : q.1 = c := by simpa using hq'.2
      rw [← hc1, hqp]
  · intro c
    refine List.Nodup.sublist ?_ hndm
    exact (List.filter_sublist _).map _

/-- Witness for C9: the skill `Python` of a concrete resume lies in exactly
one category bucket. -/
theorem skills_category_partition_witness :
    ∃! c, "Python"
      ∈ bucketOf (analyzeResume "python and docker").skills_by_category c :=
  (skills_category_partition "python and docker" "Python" (by decide)).1

/-- C10: the uploader accepts only PDFs — dropping or choosing a file whose
MIME type is not `application/pdf` leaves the selection unchanged and sets
the PDF error message, a PDF file becomes the selection and clears the
error, and hence a newly selected file is always a PDF. -/
theorem uploader_pdf_gate (s : UploaderState) (f : BrowserFile) :
    (f.mimeType ≠ "application/pdf" →
        (handleDrop s (some f)).file = s.file
          ∧ (handleDrop s (some f)).error = pdfErrorMsg
          ∧ (handleFileChange s (some f)).file = s.file
          ∧ (handleFileChange s (some f)).error = pdfErrorMsg)
      ∧ (f.mimeType = "application/pdf" →
          (handleDrop s (some f)).file = some f
            ∧ (handleDrop s (some f)).error = ""
            ∧ (handleFileChange s (some f)).file = some f
            ∧ (handleFileChange s (some f)).error = "")
      ∧ (∀ g, (handleDrop s (some f)).file = some g →
          g.mimeType = "application/pdf" ∨ s.file = some g)
      ∧ (∀ g, (handleFileChange s (some f)).file = some g →
          g.mimeType = "application/pdf" ∨ s.file = some g) := by
  refine ⟨fun hne => ?_, fun hpdf => ?_, fun g hg => ?_, fun g hg => ?_⟩
  · refine ⟨?_, ?_, ?_, ?_⟩ <;> simp [handleDrop, handleFileChange, hne]
  · refine ⟨?_, ?_, ?_, ?_⟩ <;> simp [handleDrop, handleFileChange, hpdf]
  · by_cases hpdf : f.mimeType = "application/pdf"
    · simp only [handleDrop, if_pos hpdf] at hg
      cases hg
      exact Or.inl hpdf
    · simp only [handleDrop, if_neg hpdf] at hg
      exact Or.inr hg
  · by_cases hpdf : f.mimeType = "application/pdf"
    · simp only [handleFileChange, if_pos hpdf] at hg
      cases hg
      exact Or.inl hpdf
    · simp only [handleFileChange, if_neg hpdf] at hg
      exact Or.inr hg

/-- Witness for C10: a `text/plain` file is rejected with the PDF error and
the empty selection is kept. -/
theorem uploader_pdf_gate_witness :
    (handleDrop initialUploader (some txtFile)).file = initialUploader.file
      ∧ (handleDrop initialUploader (some txtFile)).error = pdfErrorMsg
      ∧ (handleFileChange initialUploader (some txtFile)).file
          = initialUploader.file
      ∧ (handleFileChange initialUploader (some txtFile)).error
          = pdfErrorMsg :=
  (uploader_pdf_gate initialUploader txtFile).1 (by decide)

end ResumeParsing
